import Mathlib

/-
  Verification of the DNA-motif search core
  (IUPAC ambiguity-code matching, sliding-window scan, per-pattern
  aggregation, deterministic work partitioning and the length-prefixed
  wire protocol of the message-passing coordinator).

  The definitions below are a shallow embedding of the C++ sources:
    include/iupac_codes.h, src/iupac_codes.cpp   (IUPACCodes)
    include/common.h                             (data model, MotifResult)
    src/motif_finder.cpp                         (MotifFinder)
    src/parallel_processor.cpp                   (ParallelProcessor)
    src/mpi_manager.cpp                          (MPIManager)
  Strings are modelled as List Char, C++ size_t values as Nat, C doubles
  that are only produced by exact division or copied verbatim as Rat.
-/

namespace DnaMotif

/-- ASCII case fold, the effect of std::toupper on the byte values the
program feeds it: bytes in the range of the lowercase letters map to the
corresponding uppercase letter, everything else is unchanged. -/
def cToUpper (c : Char) : Char :=
  if 97 ≤ c.toNat ∧ c.toNat ≤ 122 then Char.ofNat (c.toNat - 32) else c

theorem toNat_charOfNat_of_valid (n : Nat) (hn : n.isValidChar) :
    (Char.ofNat n).toNat = n := by
  simp [Char.ofNat, hn, Char.ofNatAux, Char.toNat, UInt32.toNat, BitVec.toNat_ofNatLt]

theorem cToUpper_toNat_of_lower (c : Char) (h : 97 ≤ c.toNat ∧ c.toNat ≤ 122) :
    (cToUpper c).toNat = c.toNat - 32 := by
  have hv : (c.toNat - 32).isValidChar := Or.inl (by omega)
  simp only [cToUpper, h, and_self, if_true]
  exact toNat_charOfNat_of_valid _ hv

theorem cToUpper_eq_self_of_not_lower (c : Char)
    (h : ¬(97 ≤ c.toNat ∧ c.toNat ≤ 122)) : cToUpper c = c := by
  simp [cToUpper, h]

theorem cToUpper_idem (c : Char) : cToUpper (cToUpper c) = cToUpper c := by
  by_cases h : 97 ≤ c.toNat ∧ c.toNat ≤ 122
  · have ht := cToUpper_toNat_of_lower c h
    have hnot : ¬(97 ≤ (cToUpper c).toNat ∧ (cToUpper c).toNat ≤ 122) := by omega
    exact cToUpper_eq_self_of_not_lower _ hnot
  · rw [cToUpper_eq_self_of_not_lower c h, cToUpper_eq_self_of_not_lower c h]

/-- The 15 recognized IUPAC codes, the contents of the valid_codes_ table
set up by initializeIUPACMap (iupac_codes.cpp). -/
def validCodesList : List Char :=
  ['A', 'T', 'G', 'C', 'R', 'Y', 'S', 'W', 'K', 'M', 'B', 'D', 'H', 'V', 'N']

/-- Raw lookup in the valid_codes_ array (no case folding; the fold is done
by the callers, as in the source). -/
def validCodes (c : Char) : Bool :=
  validCodesList.contains c

/-- Raw lookup in the iupac_map_ array: the non-zero entries of the
nucleotide_set stored for a code by addMapping, in insertion order.
Unmapped indices hold the all-zero set, i.e. the empty list. -/
def iupacMap (c : Char) : List Char :=
  if c = 'A' then ['A']
  else if c = 'T' then ['T']
  else if c = 'G' then ['G']
  else if c = 'C' then ['C']
  else if c = 'R' then ['A', 'G']
  else if c = 'Y' then ['T', 'C']
  else if c = 'S' then ['G', 'C']
  else if c = 'W' then ['A', 'T']
  else if c = 'K' then ['G', 'T']
  else if c = 'M' then ['A', 'C']
  else if c = 'B' then ['C', 'G', 'T']
  else if c = 'D' then ['A', 'G', 'T']
  else if c = 'H' then ['A', 'C', 'T']
  else if c = 'V' then ['A', 'C', 'G']
  else if c = 'N' then ['A', 'T', 'G', 'C']
  else []

/-- IUPACCodes::isValidIUPACCode: case-fold, then look the byte up in
valid_codes_. -/
def isValidIUPACCode (code : Char) : Bool :=
  validCodes (cToUpper code)

/-- IUPACCodes::getNucleotides: case-fold, return the empty vector for an
invalid code, otherwise the non-zero entries of the stored nucleotide_set. -/
def getNucleotides (code : Char) : List Char :=
  let upper_code := cToUpper code
  if !isValidIUPACCode upper_code then []
  else iupacMap upper_code

/-- IUPACCodes::matches: case-fold both characters, reject an invalid code,
otherwise test membership of the folded nucleotide in the code's
equivalence class. The source name is a reserved word in Lean, hence the
quoting. -/
def «matches» (nucleotide iupac_code : Char) : Bool :=
  let upper_nucleotide := cToUpper nucleotide
  let upper_iupac_code := cToUpper iupac_code
  if !isValidIUPACCode upper_iupac_code then false
  else (getNucleotides upper_iupac_code).contains upper_nucleotide

/-- IUPACCodes::matchesMotif: false when the window overruns the sequence,
otherwise conjunction of the single-symbol matches over the window. The
guard sum is written here with unbounded Nat addition, which coincides
with the source's size_t arithmetic at every offset reachable from
findMotifMatches (all bounded by the sequence length); matchesMotifSizeT
below embeds the same source lines with the size_t wrap made explicit,
which differs only for offsets at or above 2^64 - length(motif). -/
def matchesMotif (sequence motif : List Char) (start_pos : Nat) : Bool :=
  if start_pos + motif.length > sequence.length then false
  else (List.range motif.length).all
    (fun i => «matches» (sequence.getD (start_pos + i) 'A') (motif.getD i 'A'))

/-- Number of values of the 64-bit size_t type of the target. -/
def SIZE_T_CARD : Nat := 2 ^ 64

/-- IUPACCodes::matchesMotif with the machine arithmetic of the source
made explicit: the guard start_pos + motif.length() > sequence.length()
is computed in size_t, so the sum wraps modulo 2^64, and when the guard
passes the loop dereferences sequence[start_pos + i], an index likewise
formed in size_t. A dereference at or beyond the sequence length is an
out-of-bounds read (undefined behavior in the source); the embedding
yields the default character for it, and matchesMotifOOB marks exactly
when such a read happens. -/
def matchesMotifSizeT (sequence motif : List Char) (start_pos : Nat) : Bool :=
  if (start_pos + motif.length) % SIZE_T_CARD > sequence.length then false
  else (List.range motif.length).all
    (fun i => «matches» (sequence.getD ((start_pos + i) % SIZE_T_CARD) 'A')
      (motif.getD i 'A'))

/-- True when the scan loop of matchesMotifSizeT dereferences an index at
or beyond the sequence length: the guard passed yet some read of the
window falls outside the sequence. -/
def matchesMotifOOB (sequence motif : List Char) (start_pos : Nat) : Bool :=
  if (start_pos + motif.length) % SIZE_T_CARD > sequence.length then false
  else (List.range motif.length).any
    (fun i => sequence.length ≤ (start_pos + i) % SIZE_T_CARD)

/-- IUPACCodes::findMotifMatches: empty when the sequence is shorter than
the motif, otherwise the offsets 0..(len(sequence)-len(motif)) that satisfy
matchesMotif, in ascending order. -/
def findMotifMatches (sequence motif : List Char) : List Nat :=
  if sequence.length < motif.length then []
  else
    (List.range (sequence.length - motif.length + 1)).filter
      (fun pos => matchesMotif sequence motif pos)

/-- ChIPSequence (common.h): an identifier, the nucleotide string and an
ordered list of metadata strings. -/
structure ChIPSequence where
  id : List Char
  sequence : List Char
  metadata : List (List Char)
deriving DecidableEq, Repr

/-- Motif (common.h): an IUPAC pattern string and three numeric scores.
The scores are only ever copied verbatim, so they are modelled as Rat. -/
structure Motif where
  pattern : List Char
  score1 : ℚ
  score2 : ℚ
  score3 : ℚ
deriving DecidableEq, Repr

/-- MotifMatch (common.h): index of the matching sequence, 0-based offset
and the matched substring. -/
structure MotifMatch where
  sequence_index : Nat
  position : Nat
  matched_sequence : List Char
deriving DecidableEq, Repr

/-- MotifResult (common.h): pattern, number of sequences containing at
least one occurrence, frequency and the recorded MotifMatch list. The
frequency is produced by one exact division, modelled as Rat. -/
structure MotifResult where
  motif_pattern : List Char
  match_count : Nat
  frequency : ℚ
  «matches» : List MotifMatch
deriving DecidableEq, Repr

/-- MotifResult::calculateFrequency: match_count divided by the total when
the total is positive, 0 otherwise. -/
def calculateFrequency (r : MotifResult) (total_sequences : Nat) : MotifResult :=
  if total_sequences > 0 then
    { r with frequency := (r.match_count : ℚ) / (total_sequences : ℚ) }
  else
    { r with frequency := 0 }

/-- MotifFinder::findMotifInSequence: empty when the sequence is shorter
than the pattern, otherwise one MotifMatch per offset reported by
findMotifMatches, carrying substr(pos, pattern-length) of the sequence. -/
def findMotifInSequence (seq : ChIPSequence) (motif : Motif)
    (sequence_index : Nat) : List MotifMatch :=
  if seq.sequence.length < motif.pattern.length then []
  else
    (findMotifMatches seq.sequence motif.pattern).map (fun pos =>
      { sequence_index := sequence_index, position := pos,
        matched_sequence := (seq.sequence.drop pos).take motif.pattern.length })

/-- The body of the scan loop shared by MotifFinder::findSingleMotif and
MotifFinder::processSingleMotif (the source duplicates it textually): when
the sequence has a non-empty match list, bump match_count and append the
first MotifMatch. -/
def findSingleMotifStep (motif : Motif) (acc : MotifResult)
    (p : Nat × ChIPSequence) : MotifResult :=
  match findMotifInSequence p.2 motif p.1 with
  | [] => acc
  | m :: _ =>
    { acc with match_count := acc.match_count + 1, «matches» := acc.matches ++ [m] }

/-- MotifFinder::findSingleMotif: scan the sequences in input order paired
with their indices, then compute the frequency over the number of
sequences. -/
def findSingleMotif (sequences : List ChIPSequence) (motif : Motif) : MotifResult :=
  calculateFrequency
    (sequences.enum.foldl (findSingleMotifStep motif)
      { motif_pattern := motif.pattern, match_count := 0, frequency := 0, «matches» := [] })
    sequences.length

/-- MotifFinder::processSingleMotif: textually the same loop as
findSingleMotif, differing in the source only by the performance-counter
key it updates. -/
def processSingleMotif (sequences : List ChIPSequence) (motif : Motif) : MotifResult :=
  calculateFrequency
    (sequences.enum.foldl (findSingleMotifStep motif)
      { motif_pattern := motif.pattern, match_count := 0, frequency := 0, «matches» := [] })
    sequences.length

/-- MotifFinder::findMotifs: the sequential batch path, one result per
motif in input pattern order. -/
def findMotifs (sequences : List ChIPSequence) (motifs : List Motif) : List MotifResult :=
  motifs.map (fun motif => processSingleMotif sequences motif)

/-- ParallelProcessor::processMotifsParallel: every OpenMP thread runs
findSingleMotif on the motifs of the iterations it pulled, in pull order,
and the thread-local lists are concatenated in the order the threads enter
the critical section. The schedule argument records both nondeterministic
choices: one inner list per critical-section entry, holding the motifs of
the iterations that thread executed. -/
def processMotifsParallel (sequences : List ChIPSequence)
    (schedule : List (List Motif)) : List MotifResult :=
  (schedule.map (fun chunk => chunk.map (fun motif => findSingleMotif sequences motif))).flatten

/-- MPIManager::calculateWorkDistribution: base = N div P, extra = N mod P,
start = rank * base + min rank extra, count = base + (1 when rank < extra).
With total_processes = 0 both divisions divide by zero, which is a fatal
trap in the source language; that case therefore yields no pair and is
modelled as none. -/
def calculateWorkDistribution (total_sequences : Nat) (process_rank : Nat)
    (total_processes : Nat) : Option (Nat × Nat) :=
  if total_processes = 0 then none
  else
    let base_work := total_sequences / total_processes
    let extra_work := total_sequences % total_processes
    let start_idx := process_rank * base_work + min process_rank extra_work
    let count := base_work + (if process_rank < extra_work then 1 else 0)
    some (start_idx, count)

/-- The start-index formula of calculateWorkDistribution, named so the
partition invariants can be stated about it. -/
def partStart (total_sequences total_processes process_rank : Nat) : Nat :=
  process_rank * (total_sequences / total_processes) +
    min process_rank (total_sequences % total_processes)

/-- The count formula of calculateWorkDistribution. -/
def partCount (total_sequences total_processes process_rank : Nat) : Nat :=
  total_sequences / total_processes +
    (if process_rank < total_sequences % total_processes then 1 else 0)

/-- One typed message on the wire. Each constructor is one MPI send or
broadcast: u64 is an MPI_UNSIGNED_LONG scalar, i32 an MPI_INT scalar
(always a non-negative count in this protocol), chars an MPI_CHAR array
and f64s an MPI_DOUBLE array, its payload copied verbatim. -/
inductive WireItem where
  | u64 (value : Nat)
  | i32 (value : Nat)
  | chars (value : List Char)
  | f64s (value : List ℚ)
deriving DecidableEq, Repr

/-- Width in bits of the integer channel an integer item travels on. -/
def wireWidthBits : WireItem → Nat
  | WireItem.u64 _ => 64
  | WireItem.i32 _ => 32
  | WireItem.chars s => 8 * s.length
  | WireItem.f64s xs => 64 * xs.length

/-- The two messages carrying one length-prefixed string: an MPI_INT byte
count followed by that many MPI_CHAR bytes. -/
def encodeLenPrefixed (s : List Char) : List WireItem :=
  [WireItem.i32 s.length, WireItem.chars s]

/-- The message block MPIManager::distributeSequences sends for one
ChIPSequence record: length-prefixed id, length-prefixed nucleotide
string, MPI_INT metadata count, then one length-prefixed string per
metadata entry. -/
def encodeSequence (seq : ChIPSequence) : List WireItem :=
  encodeLenPrefixed seq.id ++ encodeLenPrefixed seq.sequence ++
    (WireItem.i32 seq.metadata.length :: (seq.metadata.map encodeLenPrefixed).flatten)

/-- Everything the master sends to one non-master destination during
distributeSequences, in program order: the MPI_UNSIGNED_LONG total, the
destination's MPI_UNSIGNED_LONG partition count, then the record blocks of
the destination's slice. None when the partition itself is undefined. -/
def scatterStreamForDest (all_sequences : List ChIPSequence) (dest : Nat)
    (size : Nat) : Option (List WireItem) :=
  match calculateWorkDistribution all_sequences.length dest size with
  | none => none
  | some (start_idx, count) =>
    some (WireItem.u64 all_sequences.length :: WireItem.u64 count ::
      (((all_sequences.drop start_idx).take count).map encodeSequence).flatten)

/-- Worker-side decoding of one length-prefixed string: an MPI_INT byte
count, then the MPI_CHAR message whose payload must carry exactly that
many bytes. -/
def decodeLenPrefixed : List WireItem → Option (List Char × List WireItem)
  | WireItem.i32 n :: WireItem.chars s :: rest =>
    if s.length = n then some (s, rest) else none
  | _ => none

/-- Worker-side decoding of a counted run of metadata strings. -/
def decodeMetadata : Nat → List WireItem → Option (List (List Char) × List WireItem)
  | 0, items => some ([], items)
  | Nat.succ k, items =>
    match decodeLenPrefixed items with
    | none => none
    | some (meta, rest) =>
      match decodeMetadata k rest with
      | none => none
      | some (metas, rest2) => some (meta :: metas, rest2)

/-- Worker-side decoding of one ChIPSequence record, mirroring the receive
loop of distributeSequences. -/
def decodeSequenceRecord (items : List WireItem) :
    Option (ChIPSequence × List WireItem) :=
  match decodeLenPrefixed items with
  | none => none
  | some (seq_id, r1) =>
    match decodeLenPrefixed r1 with
    | none => none
    | some (seq_chars, r2) =>
      match r2 with
      | WireItem.i32 meta_count :: r3 =>
        match decodeMetadata meta_count r3 with
        | none => none
        | some (metas, r4) =>
          some ({ id := seq_id, sequence := seq_chars, metadata := metas }, r4)
      | _ => none

/-- Worker-side decoding of a counted run of ChIPSequence records, in
receive order. -/
def decodeSequences : Nat → List WireItem → Option (List ChIPSequence × List WireItem)
  | 0, items => some ([], items)
  | Nat.succ k, items =>
    match decodeSequenceRecord items with
    | none => none
    | some (s, rest) =>
      match decodeSequences k rest with
      | none => none
      | some (ss, rest2) => some (s :: ss, rest2)

/-- Worker-side decoding of the whole scatter stream: the
MPI_UNSIGNED_LONG total, the local MPI_UNSIGNED_LONG count, then exactly
that many records. -/
def scatterDecode (items : List WireItem) :
    Option (Nat × List ChIPSequence × List WireItem) :=
  match items with
  | WireItem.u64 total :: WireItem.u64 count :: rest =>
    match decodeSequences count rest with
    | none => none
    | some (ss, rest2) => some (total, ss, rest2)
  | _ => none

/-- The message block MPIManager::broadcastMotifs publishes for one Motif:
a length-prefixed pattern, then one MPI_DOUBLE message carrying the three
scores. -/
def encodeMotif (motif : Motif) : List WireItem :=
  encodeLenPrefixed motif.pattern ++
    [WireItem.f64s [motif.score1, motif.score2, motif.score3]]

/-- The whole broadcast stream: an MPI_INT motif count then the motif
blocks in input order. -/
def broadcastStream (motifs : List Motif) : List WireItem :=
  WireItem.i32 motifs.length :: (motifs.map encodeMotif).flatten

/-- Worker-side decoding of one Motif block. -/
def decodeMotif (items : List WireItem) : Option (Motif × List WireItem) :=
  match decodeLenPrefixed items with
  | some (pat, WireItem.f64s [s1, s2, s3] :: rest) =>
    some ({ pattern := pat, score1 := s1, score2 := s2, score3 := s3 }, rest)
  | _ => none

/-- Worker-side decoding of a counted run of Motif blocks. -/
def decodeMotifs : Nat → List WireItem → Option (List Motif × List WireItem)
  | 0, items => some ([], items)
  | Nat.succ k, items =>
    match decodeMotif items with
    | none => none
    | some (m, rest) =>
      match decodeMotifs k rest with
      | none => none
      | some (ms, rest2) => some (m :: ms, rest2)

/-- Worker-side decoding of the whole broadcast stream. -/
def broadcastDecode (items : List WireItem) :
    Option (List Motif × List WireItem) :=
  match items with
  | WireItem.i32 n :: rest => decodeMotifs n rest
  | _ => none

/-- The message block a worker sends for one MotifResult in
MPIManager::gatherResults: length-prefixed pattern, the
MPI_UNSIGNED_LONG match_count and one MPI_DOUBLE frequency. The MotifMatch
list is not transmitted. -/
def encodeResult (r : MotifResult) : List WireItem :=
  encodeLenPrefixed r.motif_pattern ++
    [WireItem.u64 r.match_count, WireItem.f64s [r.frequency]]

/-- Everything one worker sends during gatherResults: an MPI_INT result
count then the result blocks in local order. -/
def gatherStream (results : List MotifResult) : List WireItem :=
  WireItem.i32 results.length :: (results.map encodeResult).flatten

/-- Master-side decoding of one MotifResult block; the fields not on the
wire keep their default-constructed values, so the decoded record carries
an empty MotifMatch list. -/
def decodeResult (items : List WireItem) : Option (MotifResult × List WireItem) :=
  match decodeLenPrefixed items with
  | some (pat, WireItem.u64 mc :: WireItem.f64s [freq] :: rest) =>
    some ({ motif_pattern := pat, match_count := mc, frequency := freq,
            «matches» := [] }, rest)
  | _ => none

/-- Master-side decoding of a counted run of MotifResult blocks. -/
def decodeResults : Nat → List WireItem → Option (List MotifResult × List WireItem)
  | 0, items => some ([], items)
  | Nat.succ k, items =>
    match decodeResult items with
    | none => none
    | some (r, rest) =>
      match decodeResults k rest with
      | none => none
      | some (rs, rest2) => some (r :: rs, rest2)

/-- Master-side decoding of everything one worker sent during
gatherResults. -/
def gatherDecode (items : List WireItem) :
    Option (List MotifResult × List WireItem) :=
  match items with
  | WireItem.i32 n :: rest => decodeResults n rest
  | _ => none

/-- True when every MPI_CHAR string message in the stream is immediately
preceded by an MPI_INT message carrying its exact byte count. -/
def stringsLengthPrefixed : List WireItem → Bool
  | [] => true
  | WireItem.i32 n :: WireItem.chars s :: rest =>
    (s.length = n) && stringsLengthPrefixed rest
  | WireItem.chars _ :: _ => false
  | _ :: rest => stringsLengthPrefixed rest

/-- Concrete two-record corpus used to exhibit the scatter stream. -/
def demoSeqsWire : List ChIPSequence :=
  [{ id := ['a'], sequence := ['A'], metadata := [] },
   { id := ['b'], sequence := ['T'], metadata := [] }]

/-- Concrete MotifResult with a recorded MotifMatch, used to exhibit what
the gather leg loses. -/
def demoGatherResult : MotifResult :=
  { motif_pattern := ['A', 'T'], match_count := 1, frequency := 1,
    «matches» := [{ sequence_index := 0, position := 0, matched_sequence := ['A', 'T'] }] }

/-- Concrete inputs for the parallel-versus-sequential comparison. -/
def demoMotifA : Motif := { pattern := ['A'], score1 := 1, score2 := 2, score3 := 3 }

/-- Second concrete motif for the parallel-versus-sequential comparison. -/
def demoMotifB : Motif := { pattern := ['T'], score1 := 4, score2 := 5, score3 := 6 }

/-- One-record corpus for the parallel-versus-sequential comparison. -/
def demoSeqsSmall : List ChIPSequence :=
  [{ id := ['s'], sequence := ['A', 'T'], metadata := [] }]

theorem partStart_zero (N P : Nat) : partStart N P 0 = 0 := by
  simp [partStart]

theorem partStart_succ (N P r : Nat) :
    partStart N P (r + 1) = partStart N P r + partCount N P r := by
  unfold partStart partCount
  generalize N / P = b
  generalize N % P = e
  rcases Nat.lt_or_ge r e with h | h
  · rw [Nat.min_eq_left (Nat.le_of_lt h), Nat.min_eq_left h, if_pos h, add_one_mul]
    generalize r * b = t
    omega
  · rw [Nat.min_eq_right h, Nat.min_eq_right (Nat.le_succ_of_le h), if_neg (by omega),
      add_one_mul]
    generalize r * b = t
    omega

theorem partCount_sum (N P : Nat) (hP : 1 ≤ P) :
    (∑ i ∈ Finset.range P, partCount N P i) = N := by
  unfold partCount
  rw [Finset.sum_add_distrib, Finset.sum_const, Finset.sum_boole]
  have he : N % P < P := Nat.mod_lt _ (by omega)
  have hf : (Finset.range P).filter (fun r => r < N % P) = Finset.range (N % P) := by
    ext x
    simp only [Finset.mem_filter, Finset.mem_range]
    omega
  rw [hf]
  simp [Nat.mul_comm, Nat.div_add_mod]

/-- Claim C1: for every N and P with P at least 1, calculateWorkDistribution
assigns rank r the slice with start r * (N div P) + min r (N mod P) and
count (N div P) + (1 when r < N mod P); the counts over all P ranks sum to
N and consecutive ranks are contiguous (start 0 is 0 and each next start is
the previous start plus its count), with counts [4, 4, 3] and starts
[0, 4, 8] for N = 11, P = 3. -/
theorem calculateWorkDistribution_covers_and_contiguous (N P r : Nat) (hP : 1 ≤ P) :
    calculateWorkDistribution N r P = some (partStart N P r, partCount N P r)
    ∧ (∑ i ∈ Finset.range P, partCount N P i) = N
    ∧ partStart N P 0 = 0
    ∧ partStart N P (r + 1) = partStart N P r + partCount N P r
    ∧ (List.range 3).map (fun i => partCount 11 3 i) = [4, 4, 3]
    ∧ (List.range 3).map (fun i => partStart 11 3 i) = [0, 4, 8] := by
  have hP0 : ¬(P = 0) := by omega
  refine ⟨?_, partCount_sum N P hP, partStart_zero N P, partStart_succ N P r, by decide, by decide⟩
  simp [calculateWorkDistribution, hP0, partStart, partCount]

/-- Witness for C1 at the spec's example N = 11, P = 3, rank 1. -/
theorem calculateWorkDistribution_covers_and_contiguous_witness :
    calculateWorkDistribution 11 1 3 = some (partStart 11 3 1, partCount 11 3 1)
    ∧ (∑ i ∈ Finset.range 3, partCount 11 3 i) = 11
    ∧ partStart 11 3 0 = 0
    ∧ partStart 11 3 (1 + 1) = partStart 11 3 1 + partCount 11 3 1
    ∧ (List.range 3).map (fun i => partCount 11 3 i) = [4, 4, 3]
    ∧ (List.range 3).map (fun i => partStart 11 3 i) = [0, 4, 8] :=
  calculateWorkDistribution_covers_and_contiguous 11 3 1 (by decide)

/-- Claim C9: a partition request with zero total peers yields no partition:
the divisions in calculateWorkDistribution trap on zero, so the source
cannot proceed, and the embedding returns none. -/
theorem calculateWorkDistribution_zero_total_processes (N r : Nat) :
    calculateWorkDistribution N r 0 = none := rfl

/-- Claim C2: matches is true exactly when the case-folded nucleotide is a
member of the equivalence class getNucleotides returns for the case-folded
code, never errs on invalid input, and on the spec's examples gives
matches(A, R) true, matches(T, R) false and matches(x, N) true for each
concrete nucleotide x. -/
theorem matches_iff_mem_equivalenceClass (n c : Char) :
    («matches» n c = true ↔ (getNucleotides (cToUpper c)).contains (cToUpper n) = true)
    ∧ «matches» 'A' 'R' = true
    ∧ «matches» 'T' 'R' = false
    ∧ «matches» 'A' 'N' = true
    ∧ «matches» 'T' 'N' = true
    ∧ «matches» 'G' 'N' = true
    ∧ «matches» 'C' 'N' = true := by
  refine ⟨?_, by decide, by decide, by decide, by decide, by decide, by decide⟩
  by_cases hv : isValidIUPACCode (cToUpper c) = true
  · simp [«matches», hv]
  · have hv' : isValidIUPACCode (cToUpper c) = false := by
      simpa using hv
    simp [«matches», getNucleotides, isValidIUPACCode, cToUpper_idem] at hv' ⊢

/-- The ideal-arithmetic window lemma: with the guard sum taken over
unbounded Nat, matchesMotif holds exactly when the window fits inside the
sequence and every pattern position matches the aligned sequence
position, and any out-of-range offset gives false. The size_t-faithful
statement for the safety claim is matchesMotifSizeT_within_bounds_iff
below, which transfers this lemma to every offset whose guard sum does
not wrap. -/
theorem matchesMotif_within_bounds_iff (s m : List Char) (pos : Nat) :
    (matchesMotif s m pos = true ↔
      pos + m.length ≤ s.length ∧
        ∀ i < m.length, «matches» (s.getD (pos + i) 'A') (m.getD i 'A') = true)
    ∧ (s.length < pos + m.length → matchesMotif s m pos = false) := by
  constructor
  · by_cases h : pos + m.length > s.length
    · have hf : matchesMotif s m pos = false := by
        simp [matchesMotif, h]
      rw [hf]
      constructor
      · intro hc
        exact absurd hc (by simp)
      · intro hc
        exact absurd hc.1 (by omega)
    · have ht : matchesMotif s m pos = (List.range m.length).all
          (fun i => «matches» (s.getD (pos + i) 'A') (m.getD i 'A')) := by
        simp [matchesMotif, h]
      rw [ht]
      simp only [List.all_eq_true, List.mem_range]
      constructor
      · intro hall
        exact ⟨by omega, hall⟩
      · intro hall
        exact hall.2
  · intro habs
    have h : pos + m.length > s.length := by omega
    simp [matchesMotif, h]

theorem matchesMotifSizeT_eq_of_no_wrap (s m : List Char) (pos : Nat)
    (h : pos + m.length < SIZE_T_CARD) :
    matchesMotifSizeT s m pos = matchesMotif s m pos
    ∧ matchesMotifOOB s m pos = false := by
  have hmod : (pos + m.length) % SIZE_T_CARD = pos + m.length := Nat.mod_eq_of_lt h
  constructor
  · unfold matchesMotifSizeT matchesMotif
    rw [hmod]
    by_cases hg : pos + m.length > s.length
    · rw [if_pos hg, if_pos hg]
    · rw [if_neg hg, if_neg hg]
      rw [Bool.eq_iff_iff]
      simp only [List.all_eq_true, List.mem_range]
      constructor
      · intro hall i hi
        have hx := hall i hi
        rwa [Nat.mod_eq_of_lt (by omega)] at hx
      · intro hall i hi
        rw [Nat.mod_eq_of_lt (by omega)]
        exact hall i hi
  · unfold matchesMotifOOB
    rw [hmod]
    by_cases hg : pos + m.length > s.length
    · rw [if_pos hg]
    · rw [if_neg hg]
      simp only [List.any_eq_false, List.mem_range, decide_eq_true_eq]
      intro i hi
      rw [Nat.mod_eq_of_lt (by omega)]
      omega

/-- Claim C8 (amended): the guard of matchesPatternAt is evaluated in
size_t, where the sum offset + length(pattern) wraps modulo 2^64. For
every offset whose guard sum does not wrap, the function returns true
exactly when the window fits inside the sequence and every pattern
position matches the aligned sequence position, every out-of-range offset
returns false, and no read outside the sequence occurs; an offset at or
above 2^64 - length(pattern) can instead pass the wrapped guard and make
the scan read outside the sequence. -/
theorem matchesMotifSizeT_within_bounds_iff (s m : List Char) (pos : Nat)
    (hpos : pos + m.length < SIZE_T_CARD) :
    (matchesMotifSizeT s m pos = true ↔
      pos + m.length ≤ s.length ∧
        ∀ i < m.length, «matches» (s.getD (pos + i) 'A') (m.getD i 'A') = true)
    ∧ (s.length < pos + m.length → matchesMotifSizeT s m pos = false)
    ∧ matchesMotifOOB s m pos = false := by
  obtain ⟨heq, hoob⟩ := matchesMotifSizeT_eq_of_no_wrap s m pos hpos
  obtain ⟨h1, h2⟩ := matchesMotif_within_bounds_iff s m pos
  rw [heq]
  exact ⟨h1, h2, hoob⟩

/-- Witness for C8 (amended) at sequence ATG, pattern A, offset 1, where
the guard sum does not wrap. -/
theorem matchesMotifSizeT_within_bounds_iff_witness :
    (matchesMotifSizeT ['A', 'T', 'G'] ['A'] 1 = true ↔
      1 + (['A'] : List Char).length ≤ (['A', 'T', 'G'] : List Char).length ∧
        ∀ i < (['A'] : List Char).length,
          «matches» ((['A', 'T', 'G'] : List Char).getD (1 + i) 'A')
            ((['A'] : List Char).getD i 'A') = true)
    ∧ ((['A', 'T', 'G'] : List Char).length < 1 + (['A'] : List Char).length →
        matchesMotifSizeT ['A', 'T', 'G'] ['A'] 1 = false)
    ∧ matchesMotifOOB ['A', 'T', 'G'] ['A'] 1 = false :=
  matchesMotifSizeT_within_bounds_iff ['A', 'T', 'G'] ['A'] 1 (by decide)

/-- Counterexample to claim C8 as stated: at offset 2^64 - 1 with a
one-symbol pattern and a three-symbol sequence the offset is out of range
(offset + 1 exceeds 3), yet the size_t guard sum wraps to 0, the guard
passes, and the scan dereferences index 2^64 - 1 — a read outside the
sequence, so the out-of-range branch neither returns false nor stays
inside the buffer. -/
theorem matchesMotif_guard_wrap_oob :
    (SIZE_T_CARD - 1) + (['A'] : List Char).length > (['A', 'T', 'G'] : List Char).length
    ∧ ¬(((SIZE_T_CARD - 1) + (['A'] : List Char).length) % SIZE_T_CARD
          > (['A', 'T', 'G'] : List Char).length)
    ∧ matchesMotifOOB ['A', 'T', 'G'] ['A'] (SIZE_T_CARD - 1) = true :=
  ⟨by decide, by decide, by decide⟩

/-- Claim C10: with the empty pattern, findMotifMatches returns every
offset 0 .. length(s) inclusive, in ascending order (length(s) + 1
offsets), because matchesMotif is vacuously true at every offset up to
length(s). -/
theorem findMotifMatches_empty_motif (s : List Char) (pos : Nat) :
    findMotifMatches s [] = List.range (s.length + 1)
    ∧ (findMotifMatches s []).length = s.length + 1
    ∧ (pos ≤ s.length → matchesMotif s [] pos = true) := by
  have hm : ∀ q, q ≤ s.length → matchesMotif s [] q = true := by
    intro q hq
    simp [matchesMotif]
    omega
  have h1 : findMotifMatches s [] = List.range (s.length + 1) := by
    unfold findMotifMatches
    rw [if_neg (by simp)]
    simp only [List.length_nil, Nat.sub_zero]
    apply List.filter_eq_self.mpr
    intro a ha
    exact hm a (by simpa [Nat.lt_succ_iff] using List.mem_range.mp ha)
  exact ⟨h1, by simp [h1], fun hq => hm pos hq⟩

theorem calculateFrequency_fields (r : MotifResult) (t : Nat) :
    (calculateFrequency r t).motif_pattern = r.motif_pattern
    ∧ (calculateFrequency r t).match_count = r.match_count
    ∧ (calculateFrequency r t).matches = r.matches
    ∧ (calculateFrequency r t).frequency
        = (if 0 < t then (r.match_count : ℚ) / (t : ℚ) else 0) := by
  unfold calculateFrequency
  by_cases h : t > 0 <;> simp [h]

theorem foldl_findSingleMotifStep (motif : Motif) (l : List (Nat × ChIPSequence))
    (acc : MotifResult) :
    (l.foldl (findSingleMotifStep motif) acc).motif_pattern = acc.motif_pattern
    ∧ (l.foldl (findSingleMotifStep motif) acc).frequency = acc.frequency
    ∧ (l.foldl (findSingleMotifStep motif) acc).match_count
        = acc.match_count
          + (l.filter (fun p => !(findMotifInSequence p.2 motif p.1).isEmpty)).length
    ∧ (l.foldl (findSingleMotifStep motif) acc).matches
        = acc.matches ++ l.filterMap (fun p => (findMotifInSequence p.2 motif p.1).head?) := by
  induction l generalizing acc with
  | nil => simp
  | cons a l ih =>
    simp only [List.foldl_cons, List.filter_cons, List.filterMap_cons]
    cases hfm : findMotifInSequence a.2 motif a.1 with
    | nil =>
      have hstep : findSingleMotifStep motif acc a = acc := by
        simp [findSingleMotifStep, hfm]
      obtain ⟨ih1, ih2, ih3, ih4⟩ := ih acc
      rw [hstep]
      simp [hfm, ih1, ih2, ih3, ih4]
    | cons m ms =>
      have hstep : findSingleMotifStep motif acc a
          = { acc with match_count := acc.match_count + 1, «matches» := acc.matches ++ [m] } := by
        simp [findSingleMotifStep, hfm]
      obtain ⟨ih1, ih2, ih3, ih4⟩ := ih
        { acc with match_count := acc.match_count + 1, «matches» := acc.matches ++ [m] }
      rw [hstep]
      refine ⟨ih1, ih2, ?_, ?_⟩
      · rw [ih3]
        simp [hfm]
        omega
      · rw [ih4]
        simp [hfm]

/-- Claim C3: findSingleMotif scans the sequences in input order, counts one
per sequence whose scan is non-empty (not one per occurrence), records only
the first MotifMatch of each matching sequence, and sets frequency to
match_count over the number of sequences, 0 when the list is empty. -/
theorem findSingleMotif_spec (sequences : List ChIPSequence) (motif : Motif) :
    (findSingleMotif sequences motif).motif_pattern = motif.pattern
    ∧ (findSingleMotif sequences motif).match_count
        = ((sequences.enum).filter
            (fun p => !(findMotifInSequence p.2 motif p.1).isEmpty)).length
    ∧ (findSingleMotif sequences motif).matches
        = (sequences.enum).filterMap (fun p => (findMotifInSequence p.2 motif p.1).head?)
    ∧ (findSingleMotif sequences motif).frequency
        = (if 0 < sequences.length
            then ((findSingleMotif sequences motif).match_count : ℚ) / (sequences.length : ℚ)
            else 0) := by
  obtain ⟨hc1, hc2, hc3, hc4⟩ := calculateFrequency_fields
    (sequences.enum.foldl (findSingleMotifStep motif)
      { motif_pattern := motif.pattern, match_count := 0, frequency := 0, «matches» := [] })
    sequences.length
  obtain ⟨hf1, hf2, hf3, hf4⟩ := foldl_findSingleMotifStep motif sequences.enum
    { motif_pattern := motif.pattern, match_count := 0, frequency := 0, «matches» := [] }
  unfold findSingleMotif
  refine ⟨?_, ?_, ?_, ?_⟩
  · rw [hc1, hf1]
  · rw [hc2, hf3]
    simp
  · rw [hc3, hf4]
    simp
  · rw [hc4, hc2]

theorem matchesMotif_le (s m : List Char) (pos : Nat)
    (h : matchesMotif s m pos = true) : pos + m.length ≤ s.length := by
  by_cases hgt : pos + m.length > s.length
  · rw [matchesMotif, if_pos hgt] at h
    cases h
  · omega

theorem findMotifMatches_mem (s p : List Char) (pos : Nat) :
    pos ∈ findMotifMatches s p ↔ matchesMotif s p pos = true := by
  unfold findMotifMatches
  by_cases h : s.length < p.length
  · rw [if_pos h]
    constructor
    · intro hc
      exact absurd hc (List.not_mem_nil pos)
    · intro hm
      exfalso
      have := matchesMotif_le s p pos hm
      omega
  · rw [if_neg h]
    simp only [List.mem_filter, List.mem_range]
    constructor
    · intro hp
      exact hp.2
    · intro hm
      refine ⟨?_, hm⟩
      have := matchesMotif_le s p pos hm
      omega

theorem findMotifMatches_sorted (s p : List Char) :
    List.Sorted (· < ·) (findMotifMatches s p) := by
  unfold findMotifMatches
  by_cases h : s.length < p.length
  · simp [h]
  · rw [if_neg h]
    exact List.Pairwise.filter _ (List.pairwise_lt_range _)

theorem findMotifInSequence_eq_map (seq : ChIPSequence) (motif : Motif) (idx : Nat) :
    findMotifInSequence seq motif idx
      = (findMotifMatches seq.sequence motif.pattern).map (fun q =>
          { sequence_index := idx, position := q,
            matched_sequence := (seq.sequence.drop q).take motif.pattern.length }) := by
  unfold findMotifInSequence
  by_cases h : seq.sequence.length < motif.pattern.length
  · rw [if_pos h]
    unfold findMotifMatches
    rw [if_pos h]
    simp
  · rw [if_neg h]

theorem findMotifInSequence_lengths (seq : ChIPSequence) (motif : Motif) (idx : Nat) :
    (findMotifInSequence seq motif idx).map (fun mr => mr.matched_sequence.length)
      = (findMotifMatches seq.sequence motif.pattern).map (fun _ => motif.pattern.length) := by
  rw [findMotifInSequence_eq_map, List.map_map]
  apply List.map_congr_left
  intro q hq
  have hm := (findMotifMatches_mem _ _ q).mp hq
  have hle := matchesMotif_le _ _ _ hm
  simp only [Function.comp]
  rw [List.length_take, List.length_drop]
  omega

/-- Claim C4: findMotifMatches returns exactly the offsets at which
matchesMotif holds (all of them lie in 0 .. length(s) - length(p)), in
ascending order, empty when the pattern is longer than the sequence; and
findMotifInSequence turns each such offset, in the same order, into one
MotifMatch carrying the matched substring, whose length is the pattern
length. -/
theorem findMotifMatches_scanOne_spec (s p : List Char) (pos : Nat)
    (seq : ChIPSequence) (motif : Motif) (idx : Nat) :
    (pos ∈ findMotifMatches s p ↔ matchesMotif s p pos = true)
    ∧ List.Sorted (· < ·) (findMotifMatches s p)
    ∧ (s.length < p.length → findMotifMatches s p = [])
    ∧ findMotifInSequence seq motif idx
        = (findMotifMatches seq.sequence motif.pattern).map (fun q =>
            { sequence_index := idx, position := q,
              matched_sequence := (seq.sequence.drop q).take motif.pattern.length })
    ∧ (findMotifInSequence seq motif idx).map (fun mr => mr.matched_sequence.length)
        = (findMotifMatches seq.sequence motif.pattern).map
            (fun _ => motif.pattern.length) := by
  refine ⟨findMotifMatches_mem s p pos, findMotifMatches_sorted s p, ?_,
    findMotifInSequence_eq_map seq motif idx, findMotifInSequence_lengths seq motif idx⟩
  intro h
  unfold findMotifMatches
  rw [if_pos h]

/-- Claim C7: whatever iteration assignment and merge order the thread pool
produces (any schedule whose flattening is a permutation of the motif
list), the parallel batch output is a permutation of the sequential batch
output, and per motif the parallel path computes the very same
MotifResult as the sequential path. -/
theorem processMotifsParallel_perm_findMotifs (sequences : List ChIPSequence)
    (motifs : List Motif) (schedule : List (List Motif)) (motif : Motif)
    (h : schedule.flatten.Perm motifs) :
    (processMotifsParallel sequences schedule).Perm (findMotifs sequences motifs)
    ∧ findSingleMotif sequences motif = processSingleMotif sequences motif := by
  refine ⟨?_, rfl⟩
  have hmap : processMotifsParallel sequences schedule
      = schedule.flatten.map (fun m => findSingleMotif sequences m) := by
    unfold processMotifsParallel
    rw [List.map_flatten]
  rw [hmap]
  have hperm := h.map (fun m => findSingleMotif sequences m)
  exact hperm

/-- Witness for C7: two motifs scheduled on two threads in swapped order. -/
theorem processMotifsParallel_perm_findMotifs_witness :
    (processMotifsParallel demoSeqsSmall [[demoMotifB], [demoMotifA]]).Perm
      (findMotifs demoSeqsSmall [demoMotifA, demoMotifB])
    ∧ findSingleMotif demoSeqsSmall demoMotifA
        = processSingleMotif demoSeqsSmall demoMotifA :=
  processMotifsParallel_perm_findMotifs demoSeqsSmall [demoMotifA, demoMotifB]
    [[demoMotifB], [demoMotifA]] demoMotifA (by decide)

theorem decodeLenPrefixed_encode (s : List Char) (rest : List WireItem) :
    decodeLenPrefixed (encodeLenPrefixed s ++ rest) = some (s, rest) := by
  simp [encodeLenPrefixed, decodeLenPrefixed]

theorem decodeMetadata_encode (metas : List (List Char)) (rest : List WireItem) :
    decodeMetadata metas.length ((metas.map encodeLenPrefixed).flatten ++ rest)
      = some (metas, rest) := by
  induction metas with
  | nil => simp [decodeMetadata]
  | cons m ms ih =>
    simp [decodeMetadata, decodeLenPrefixed_encode, List.append_assoc, ih]

theorem decodeSequenceRecord_encode (seq : ChIPSequence) (rest : List WireItem) :
    decodeSequenceRecord (encodeSequence seq ++ rest) = some (seq, rest) := by
  simp [encodeSequence, decodeSequenceRecord, List.append_assoc,
    decodeLenPrefixed_encode, decodeMetadata_encode]

theorem decodeSequences_encode (seqs : List ChIPSequence) (rest : List WireItem) :
    decodeSequences seqs.length ((seqs.map encodeSequence).flatten ++ rest)
      = some (seqs, rest) := by
  induction seqs with
  | nil => simp [decodeSequences]
  | cons s ss ih =>
    simp [decodeSequences, decodeSequenceRecord_encode, List.append_assoc, ih]

theorem scatterDecode_encode (total : Nat) (seqs : List ChIPSequence)
    (rest : List WireItem) :
    scatterDecode (WireItem.u64 total :: WireItem.u64 seqs.length ::
        ((seqs.map encodeSequence).flatten ++ rest)) = some (total, seqs, rest) := by
  simp [scatterDecode, decodeSequences_encode]

theorem decodeMotif_encode (m : Motif) (rest : List WireItem) :
    decodeMotif (encodeMotif m ++ rest) = some (m, rest) := by
  simp [encodeMotif, decodeMotif, List.append_assoc, decodeLenPrefixed_encode]

theorem decodeMotifs_encode (ms : List Motif) (rest : List WireItem) :
    decodeMotifs ms.length ((ms.map encodeMotif).flatten ++ rest) = some (ms, rest) := by
  induction ms with
  | nil => simp [decodeMotifs]
  | cons m ms ih =>
    simp [decodeMotifs, decodeMotif_encode, List.append_assoc, ih]

theorem broadcastDecode_encode (ms : List Motif) (rest : List WireItem) :
    broadcastDecode (broadcastStream ms ++ rest) = some (ms, rest) := by
  simp [broadcastStream, broadcastDecode, decodeMotifs_encode]

theorem decodeResult_encode (r : MotifResult) (rest : List WireItem) :
    decodeResult (encodeResult r ++ rest) = some ({ r with «matches» := [] }, rest) := by
  simp [encodeResult, decodeResult, List.append_assoc, decodeLenPrefixed_encode]

theorem decodeResults_encode (rs : List MotifResult) (rest : List WireItem) :
    decodeResults rs.length ((rs.map encodeResult).flatten ++ rest)
      = some (rs.map (fun r => { r with «matches» := [] }), rest) := by
  induction rs with
  | nil => simp [decodeResults]
  | cons r rs ih =>
    simp [decodeResults, decodeResult_encode, List.append_assoc, ih]

theorem gatherDecode_encode (rs : List MotifResult) (rest : List WireItem) :
    gatherDecode (gatherStream rs ++ rest)
      = some (rs.map (fun r => { r with «matches» := [] }), rest) := by
  simp [gatherStream, gatherDecode, decodeResults_encode]

/-- Claim C5 (amended): decoding what the peer encoded reproduces the
Sequence and Pattern record blocks exactly (every string byte and numeric
field); the gather leg reproduces each PatternResult's pattern string,
match_count and frequency, but its MotifMatch list is not transmitted and
decodes as empty. -/
theorem wire_roundtrip_blocks (seqs : List ChIPSequence) (total : Nat)
    (ms : List Motif) (rs : List MotifResult) (r1 r2 r3 : List WireItem) :
    scatterDecode (WireItem.u64 total :: WireItem.u64 seqs.length ::
        ((seqs.map encodeSequence).flatten ++ r1)) = some (total, seqs, r1)
    ∧ broadcastDecode (broadcastStream ms ++ r2) = some (ms, r2)
    ∧ gatherDecode (gatherStream rs ++ r3)
        = some (rs.map (fun r => { r with «matches» := [] }), r3) :=
  ⟨scatterDecode_encode total seqs r1, broadcastDecode_encode ms r2,
    gatherDecode_encode rs r3⟩

/-- Counterexample to claim C5 as stated: a gathered PatternResult that
recorded one MotifMatch does not come back equal to the original — the
decoded record has an empty MotifMatch list. -/
theorem gather_roundtrip_not_exact :
    gatherDecode (gatherStream [demoGatherResult]) ≠ some ([demoGatherResult], []) := by
  decide

/-- True when the stream is empty or begins with an MPI_INT message;
every record block starts with one, which is what keeps the
length-prefix pairing of stringsLengthPrefixed stable under
concatenation of record blocks. -/
def headIsI32OrNil : List WireItem → Bool
  | [] => true
  | WireItem.i32 _ :: _ => true
  | _ => false

theorem slp_meta_append (metas : List (List Char)) (rest : List WireItem) :
    stringsLengthPrefixed ((metas.map encodeLenPrefixed).flatten ++ rest)
      = stringsLengthPrefixed rest := by
  induction metas with
  | nil => simp
  | cons m ms ih =>
    simp [encodeLenPrefixed, stringsLengthPrefixed, List.append_assoc, ih]

theorem slp_encodeSequence_append (seq : ChIPSequence) (rest : List WireItem)
    (hr : headIsI32OrNil rest = true) :
    stringsLengthPrefixed (encodeSequence seq ++ rest) = stringsLengthPrefixed rest := by
  rcases hmeta : seq.metadata with _ | ⟨m, ms⟩
  · rcases rest with _ | ⟨w, tail⟩
    · simp [encodeSequence, encodeLenPrefixed, hmeta, stringsLengthPrefixed]
    · rcases w with v | v | v | v
      · simp [headIsI32OrNil] at hr
      · simp [encodeSequence, encodeLenPrefixed, hmeta, stringsLengthPrefixed]
      · simp [headIsI32OrNil] at hr
      · simp [headIsI32OrNil] at hr
  · have hflat : (seq.metadata.map encodeLenPrefixed).flatten
        = WireItem.i32 m.length :: WireItem.chars m
            :: ((ms.map encodeLenPrefixed).flatten) := by
      simp [hmeta, encodeLenPrefixed]
    calc stringsLengthPrefixed (encodeSequence seq ++ rest)
        = stringsLengthPrefixed ((seq.metadata.map encodeLenPrefixed).flatten ++ rest) := by
          simp [encodeSequence, encodeLenPrefixed, hflat, stringsLengthPrefixed,
            List.append_assoc]
      _ = stringsLengthPrefixed rest := slp_meta_append seq.metadata rest

theorem headIsI32OrNil_records (seqs : List ChIPSequence) :
    headIsI32OrNil ((seqs.map encodeSequence).flatten) = true := by
  cases seqs with
  | nil => rfl
  | cons s ss => simp [encodeSequence, encodeLenPrefixed, headIsI32OrNil]

theorem slp_records (seqs : List ChIPSequence) :
    stringsLengthPrefixed ((seqs.map encodeSequence).flatten) = true := by
  induction seqs with
  | nil => rfl
  | cons s ss ih =>
    have h := slp_encodeSequence_append s ((ss.map encodeSequence).flatten)
      (headIsI32OrNil_records ss)
    simpa [h] using ih

/-- Claim C6 (amended): in the scatter message every variable-length string
is preceded by its own 32-bit byte count, and the per-record layout is
32-bit-length-prefixed id, 32-bit-length-prefixed symbol string and a
32-bit metadata count followed by 32-bit-length-prefixed metadata strings;
but the leading totalSequences and per-destination localCount travel as
64-bit unsigned integers (MPI_UNSIGNED_LONG), not as 32-bit counts. -/
theorem scatter_wire_format (all : List ChIPSequence) (dest size : Nat)
    (stream : List WireItem) (h : scatterStreamForDest all dest size = some stream) :
    stream.head? = some (WireItem.u64 all.length)
    ∧ stream.tail.head? = some (WireItem.u64 (partCount all.length size dest))
    ∧ stream.drop 2
        = (((all.drop (partStart all.length size dest)).take
              (partCount all.length size dest)).map encodeSequence).flatten
    ∧ stringsLengthPrefixed stream = true
    ∧ wireWidthBits (WireItem.u64 all.length) = 64 := by
  by_cases hz : size = 0
  · rw [scatterStreamForDest] at h
    simp [calculateWorkDistribution, hz] at h
  · have hcw : calculateWorkDistribution all.length dest size
        = some (partStart all.length size dest, partCount all.length size dest) := by
      simp [calculateWorkDistribution, hz, partStart, partCount]
    rw [scatterStreamForDest, hcw] at h
    simp only [Option.some.injEq] at h
    subst h
    refine ⟨rfl, rfl, rfl, ?_, rfl⟩
    simpa [stringsLengthPrefixed] using slp_records
      ((all.drop (partStart all.length size dest)).take (partCount all.length size dest))

/-- Witness for C6 (amended) on a concrete two-record corpus scattered to
destination rank 1 of 2. -/
theorem scatter_wire_format_witness :
    ([WireItem.u64 2, WireItem.u64 1, WireItem.i32 1, WireItem.chars ['b'],
        WireItem.i32 1, WireItem.chars ['T'], WireItem.i32 0] : List WireItem).head?
        = some (WireItem.u64 demoSeqsWire.length)
    ∧ ([WireItem.u64 2, WireItem.u64 1, WireItem.i32 1, WireItem.chars ['b'],
        WireItem.i32 1, WireItem.chars ['T'], WireItem.i32 0] : List WireItem).tail.head?
        = some (WireItem.u64 (partCount demoSeqsWire.length 2 1))
    ∧ ([WireItem.u64 2, WireItem.u64 1, WireItem.i32 1, WireItem.chars ['b'],
        WireItem.i32 1, WireItem.chars ['T'], WireItem.i32 0] : List WireItem).drop 2
        = (((demoSeqsWire.drop (partStart demoSeqsWire.length 2 1)).take
              (partCount demoSeqsWire.length 2 1)).map encodeSequence).flatten
    ∧ stringsLengthPrefixed
        [WireItem.u64 2, WireItem.u64 1, WireItem.i32 1, WireItem.chars ['b'],
          WireItem.i32 1, WireItem.chars ['T'], WireItem.i32 0] = true
    ∧ wireWidthBits (WireItem.u64 demoSeqsWire.length) = 64 :=
  scatter_wire_format demoSeqsWire 1 2
    [WireItem.u64 2, WireItem.u64 1, WireItem.i32 1, WireItem.chars ['b'],
      WireItem.i32 1, WireItem.chars ['T'], WireItem.i32 0] (by decide)

/-- Counterexample to claim C6 as stated: on a concrete corpus the first
two integers of the scatter stream — totalSequences and localCount — are
64-bit items, not 32-bit counts. -/
theorem scatter_counts_not_32bit :
    scatterStreamForDest demoSeqsWire 1 2
      = some [WireItem.u64 2, WireItem.u64 1, WireItem.i32 1, WireItem.chars ['b'],
          WireItem.i32 1, WireItem.chars ['T'], WireItem.i32 0]
    ∧ wireWidthBits (WireItem.u64 2) ≠ 32
    ∧ wireWidthBits (WireItem.u64 1) ≠ 32 := by
  refine ⟨by decide, by decide, by decide⟩

end DnaMotif
